import Mathlib

/-!
Shallow embedding of the elrond-proxy-go transaction processor
(`process/transactionProcessor.go`) and ESDT supplies processor
(`process/esdtSuppliesProcessor.go`), together with proofs about the
behaviour of `SendTransaction`, `SendMultipleTransactions`,
`getScResultsUnion`, `checkTransactionFields`, `ComputeTransactionHash`,
`GetESDTSupply` and `GetTransactionsPoolForShard`.

External collaborators (public-key codec, shard coordinator, HTTP layer,
logs merger, hasher) are modelled as function parameters; machine calls to
observers are modelled by the list of outcomes the observers would return,
in trial order.
-/

namespace ElrondProxy

/-- The distinguished metachain shard id (`core.MetachainShardId`, max uint32). -/
def metachainShardId : Nat := 4294967295

/-! ### Go parsing primitives -/

/-- Whether every character of the list is an ASCII decimal digit. -/
def allDigits (cs : List Char) : Bool := cs.all (fun c => c.isDigit)

/-- Numeric value of a list of decimal digits, most significant first. -/
def digitsVal (cs : List Char) : Nat := cs.foldl (fun a c => a * 10 + (c.toNat - 48)) 0

/-- Embedding of Go `big.NewInt(0).SetString(s, 10)`: an optional sign followed
by one or more decimal digits; anything else yields `none` (Go: nil, false). -/
def goParseDecimal (s : String) : Option Int :=
  match s.data with
  | [] => none
  | '-' :: rest => if rest ≠ [] ∧ allDigits rest then some (-(digitsVal rest : Int)) else none
  | '+' :: rest => if rest ≠ [] ∧ allDigits rest then some ((digitsVal rest : Int)) else none
  | cs => if allDigits cs then some ((digitsVal cs : Int)) else none

/-- Value of a hexadecimal character as in Go `encoding/hex.fromHexChar`. -/
def hexCharVal (c : Char) : Option Nat :=
  if c.isDigit then some (c.toNat - 48)
  else if 'a' ≤ c ∧ c ≤ 'f' then some (c.toNat - 87)
  else if 'A' ≤ c ∧ c ≤ 'F' then some (c.toNat - 55)
  else none

/-- Pairwise hex decoding of a character list; odd length or an invalid
character fails, as in Go `hex.DecodeString`. -/
def goHexDecodeList : List Char → Option (List Nat)
  | [] => some []
  | [_] => none
  | c1 :: c2 :: rest =>
    match hexCharVal c1, hexCharVal c2, goHexDecodeList rest with
    | some h, some l, some bs => some ((16 * h + l) :: bs)
    | _, _, _ => none

/-- Embedding of Go `hex.DecodeString`. -/
def goHexDecode (s : String) : Option (List Nat) := goHexDecodeList s.data

/-- Lower-case hexadecimal digit for a value below 16. -/
def hexDigitChar (n : Nat) : Char :=
  if n < 10 then Char.ofNat (48 + n) else Char.ofNat (87 + n)

/-- Embedding of Go `hex.EncodeToString` on a byte list. -/
def hexEncode (bytes : List Nat) : String :=
  String.mk (bytes.foldr (fun b acc => hexDigitChar (b / 16 % 16) :: hexDigitChar (b % 16) :: acc) [])

/-- Split of a character list at every dash, as in Go `strings.Split(s, "-")`. -/
def splitDashAux : List Char → List Char → List (List Char)
  | [], cur => [cur.reverse]
  | c :: rest, cur =>
    if c = '-' then cur.reverse :: splitDashAux rest [] else splitDashAux rest (c :: cur)

/-- Number of parts of `strings.Split(s, "-")`. -/
def dashParts (s : String) : Nat := (splitDashAux s.data []).length

/-! ### Transactions and field validation (`checkTransactionFields`) -/

/-- Embedding of `data.Transaction` with the fields the processor reads.
`index` is the `Index` field assigned by `groupTxsByShard`. -/
structure Transaction where
  nonce : Nat
  value : String
  receiver : String
  sender : String
  gasPrice : Nat
  gasLimit : Nat
  txData : List Nat
  signature : String
  chainID : String
  version : Nat
  index : Nat
  deriving DecidableEq

/-- The five `ErrInvalidTxFields` variants produced by `checkTransactionFields`. -/
inductive TxFieldsErr where
  | invalidSenderAddress
  | invalidReceiverAddress
  | noChainID
  | noVersion
  | invalidSignatureHex
  deriving DecidableEq

/-- Embedding of `TransactionProcessor.checkTransactionFields`; the public-key
codec `decode` is the injected `pubKeyConverter.Decode`. -/
def checkTransactionFields (decode : String → Option (List Nat)) (tx : Transaction) :
    Option TxFieldsErr :=
  match decode tx.sender with
  | none => some .invalidSenderAddress
  | some _ =>
    match decode tx.receiver with
    | none => some .invalidReceiverAddress
    | some _ =>
      if tx.chainID = "" then some .noChainID
      else if tx.version = 0 then some .noVersion
      else
        match goHexDecode tx.signature with
        | none => some .invalidSignatureHex
        | some _ => none

/-! ### Single transaction send (`SendTransaction`) -/

/-- Outcome of one `CallPostRestEndPoint` against one observer on the
`/transaction/send` path: HTTP status, decoded tx hash, transport error. -/
structure ObsResp where
  code : Nat
  txHash : String
  err : Option String
  deriving DecidableEq

/-- Errors `SendTransaction` can produce. -/
inductive SendTxErr where
  | invalidFields (e : TxFieldsErr)
  | decodeError
  | computeShardError
  | getObserversError
  | transport (s : String)
  | sendingRequest
  deriving DecidableEq

/-- The failover loop of `SendTransaction` lines 595-618: first 200-with-no-error
wins; 404 and 408 skip to the next observer; any other outcome is returned;
exhaustion yields 500 with `ErrSendingRequest`. -/
def sendTxLoop : List ObsResp → Nat × String × Option SendTxErr
  | [] => (500, "", some .sendingRequest)
  | r :: rest =>
    if r.code = 200 ∧ r.err = none then (200, r.txHash, none)
    else if r.code = 404 ∨ r.code = 408 then sendTxLoop rest
    else (r.code, "", r.err.map SendTxErr.transport)

/-- Number of observers actually contacted by `sendTxLoop`. -/
def sendTxCalls : List ObsResp → Nat
  | [] => 0
  | r :: rest =>
    if r.code = 200 ∧ r.err = none then 1
    else if r.code = 404 ∨ r.code = 408 then 1 + sendTxCalls rest
    else 1

/-- Collaborators of `SendTransaction`: codec, shard coordinator, and the
observer outcomes per shard (`GetObservers` composed with the POST call). -/
structure SendEnv where
  decode : String → Option (List Nat)
  computeShardId : List Nat → Option Nat
  getObservers : Nat → Option (List ObsResp)

/-- Embedding of `TransactionProcessor.SendTransaction`. -/
def SendTransaction (env : SendEnv) (tx : Transaction) : Nat × String × Option SendTxErr :=
  match checkTransactionFields env.decode tx with
  | some e => (400, "", some (.invalidFields e))
  | none =>
    match env.decode tx.sender with
    | none => (400, "", some .decodeError)
    | some senderBuff =>
      match env.computeShardId senderBuff with
      | none => (500, "", some .computeShardError)
      | some shardID =>
        match env.getObservers shardID with
        | none => (500, "", some .getObserversError)
        | some observers => sendTxLoop observers

/-! ### Smart-contract result union (`getScResultsUnion`,
`mergeScResultsFromSourceAndDestIfNeeded`) -/

/-- Embedding of `transaction.ApiSmartContractResult` with the fields the
merge logic reads: the identifying hash, the event logs, and an opaque
payload standing for every other field. -/
structure ApiSmartContractResult where
  hash : String
  logs : List String
  payload : Nat
  deriving DecidableEq

/-- Lookup in the association list standing for the Go map `scResultsHash`. -/
def scrFind (m : List ApiSmartContractResult) (h : String) : Option ApiSmartContractResult :=
  m.find? (fun x => x.hash == h)

/-- One iteration of the loop of `getScResultsUnion`: a fresh hash is inserted;
a hash already present keeps the later copy but with
`Logs := MergeLogEvents(previous.Logs, later.Logs)`. -/
def scrStep (merge : List String → List String → List String)
    (m : List ApiSmartContractResult) (scr : ApiSmartContractResult) :
    List ApiSmartContractResult :=
  match scrFind m scr.hash with
  | none => m ++ [scr]
  | some prev =>
    m.map (fun x => if x.hash == scr.hash then { scr with logs := merge prev.logs scr.logs } else x)

/-- Embedding of `TransactionProcessor.getScResultsUnion`; the Go map is kept
as an insertion-ordered association list (the order of the Go result is
unspecified), `merge` is the injected `mergeLogsHandler.MergeLogEvents`. -/
def getScResultsUnion (merge : List String → List String → List String)
    (scResults : List ApiSmartContractResult) : List ApiSmartContractResult :=
  scResults.foldl (scrStep merge) []

/-- Embedding of `transaction.ApiTransactionResult` with the fields the
cross-shard merge reads. -/
structure ApiTransactionResult where
  scResults : List ApiSmartContractResult
  sourceShard : Nat
  destinationShard : Nat
  deriving DecidableEq

/-- Embedding of `TransactionProcessor.mergeScResultsFromSourceAndDestIfNeeded`. -/
def mergeScResultsFromSourceAndDestIfNeeded (merge : List String → List String → List String)
    (sourceTx destTx : ApiTransactionResult) (withEvents : Bool) : ApiTransactionResult :=
  if !withEvents then destTx
  else { destTx with scResults := getScResultsUnion merge (sourceTx.scResults ++ destTx.scResults) }

/-! ### Multiple transaction send (`groupTxsByShard`, `SendMultipleTransactions`) -/

/-- Outcome of one `CallPostRestEndPoint` on `/transaction/send-multiple`:
HTTP status, transport error, and the decoded `ResponseMultipleTransactions`
body (`NumOfTxs` and the `TxsHashes` map as an association list). -/
structure MultiObsResp where
  code : Nat
  err : Option String
  numOfTxs : Nat
  txsHashes : List (Nat × String)
  deriving DecidableEq

/-- Collaborators of `SendMultipleTransactions`. -/
structure MultiEnv where
  decode : String → Option (List Nat)
  computeShardId : List Nat → Option Nat
  getObservers : Nat → Option (List MultiObsResp)

/-- Append `tx` to the group of shard `k`, creating the group on first use;
stands for `txsMap[senderShardID] = append(txsMap[senderShardID], tx)`. -/
def groupsInsert (m : List (Nat × List Transaction)) (k : Nat) (tx : Transaction) :
    List (Nat × List Transaction) :=
  match m with
  | [] => [(k, [tx])]
  | (k', l) :: rest =>
    if k' = k then (k', l ++ [tx]) :: rest else (k', l) :: groupsInsert rest k tx

/-- The loop of `groupTxsByShard`: `idx` is the running `range` index; a
transaction whose sender fails to decode or whose shard cannot be computed is
skipped; otherwise its `Index` is set to `idx` and it joins its shard group. -/
def groupTxsByShardGo (env : MultiEnv) :
    Nat → List Transaction → List (Nat × List Transaction) → List (Nat × List Transaction)
  | _, [], m => m
  | idx, tx :: rest, m =>
    match env.decode tx.sender with
    | none => groupTxsByShardGo env (idx + 1) rest m
    | some senderBytes =>
      match env.computeShardId senderBytes with
      | none => groupTxsByShardGo env (idx + 1) rest m
      | some shard => groupTxsByShardGo env (idx + 1) rest (groupsInsert m shard { tx with index := idx })

/-- Embedding of `TransactionProcessor.groupTxsByShard`; the Go map is kept as
an association list in first-insertion order. -/
def groupTxsByShard (env : MultiEnv) (txs : List Transaction) : List (Nat × List Transaction) :=
  groupTxsByShardGo env 0 txs []

/-- Errors of `SendMultipleTransactions`; `panicIndexOutOfRange` marks the Go
runtime panic of `groupOfTxs[key]` on an out-of-range backend key. -/
inductive MultiTxErr where
  | noValidTransactionToSend
  | missingObserver
  | panicIndexOutOfRange
  deriving DecidableEq

/-- Embedding of `data.MultipleTransactionsResponseData`; the `TxsHashes` map
is an association list keyed by the assigned transaction index. -/
structure MultipleTransactionsResponseData where
  numOfTxs : Nat
  txsHashes : List (Nat × String)
  deriving DecidableEq

/-- Map write `txsHashes[k] = v` on the association list. -/
def hashesInsert (m : List (Nat × String)) (k : Nat) (v : String) : List (Nat × String) :=
  match m with
  | [] => [(k, v)]
  | (k', v') :: rest =>
    if k' = k then (k, v) :: rest else (k', v') :: hashesInsert rest k v

/-- The merge `txsHashes[groupOfTxs[key].Index] = hash` applied for every entry
of a backend response; an out-of-range key is the Go panic. -/
def applyObsHashes (groupOfTxs : List Transaction) :
    List (Nat × String) → List (Nat × String) → Except MultiTxErr (List (Nat × String))
  | [], acc => .ok acc
  | (key, hash) :: rest, acc =>
    match groupOfTxs.get? key with
    | none => .error .panicIndexOutOfRange
    | some tx => applyObsHashes groupOfTxs rest (hashesInsert acc tx.index hash)

/-- First observer outcome with status 200 and no transport error (the `break`
condition of the inner loop of `SendMultipleTransactions`). -/
def firstOkMulti : List MultiObsResp → Option MultiObsResp
  | [] => none
  | r :: rest => if r.code = 200 ∧ r.err = none then some r else firstOkMulti rest

/-- The per-shard-group loop of `SendMultipleTransactions`: missing observers
abort the whole call; a group whose observers all fail contributes nothing;
the first successful observer of a group contributes its `NumOfTxs` and its
re-keyed `TxsHashes`. -/
def processShardGroups (env : MultiEnv) :
    List (Nat × List Transaction) → Nat → List (Nat × String) →
    Except MultiTxErr MultipleTransactionsResponseData
  | [], total, hashes => .ok ⟨total, hashes⟩
  | (shardID, groupOfTxs) :: rest, total, hashes =>
    match env.getObservers shardID with
    | none => .error .missingObserver
    | some observers =>
      match firstOkMulti observers with
      | none => processShardGroups env rest total hashes
      | some r =>
        match applyObsHashes groupOfTxs r.txsHashes hashes with
        | .error e => .error e
        | .ok hashes' => processShardGroups env rest (total + r.numOfTxs) hashes'

/-- The `txsToSend` filter of `SendMultipleTransactions`: invalid
transactions are silently dropped. -/
def txsToSend (env : MultiEnv) (txs : List Transaction) : List Transaction :=
  txs.filter (fun tx => (checkTransactionFields env.decode tx).isNone)

/-- Embedding of `TransactionProcessor.SendMultipleTransactions`. -/
def SendMultipleTransactions (env : MultiEnv) (txs : List Transaction) :
    Except MultiTxErr MultipleTransactionsResponseData :=
  if (txsToSend env txs).isEmpty then .error .noValidTransactionToSend
  else processShardGroups env (groupTxsByShard env (txsToSend env txs)) 0 []

/-! ### ESDT supplies processor (`GetESDTSupply`) -/

/-- Outcome of one `CallGetRestEndPoint` on `/network/esdt/supply/{token}`:
transport error flag and the `Data.Supply` string of the decoded body. -/
structure SupplyObsResp where
  errGet : Bool
  supply : String
  deriving DecidableEq

/-- Failure modes of the ESDT supplies processor; `nilPointerPanic` marks the
Go runtime panic of `big.Int.Add` on the nil result of an unchecked
`SetString` failure. -/
inductive EsdtErr where
  | observersError
  | sendingRequest
  | queryError
  | nilPointerPanic
  deriving DecidableEq

/-- The observer loop of `getShardSupply`: transport errors skip to the next
observer; the first answer wins, an empty supply string counting as zero and
any other string going through `SetString` unguarded (`none` = nil big.Int). -/
def getShardSupplyLoop : List SupplyObsResp → Except EsdtErr (Option Int)
  | [] => .error .sendingRequest
  | r :: rest =>
    if r.errGet then getShardSupplyLoop rest
    else if r.supply = "" then .ok (some 0)
    else .ok (goParseDecimal r.supply)

/-- Collaborators of the ESDT supplies processor: the shard id list, the
supply observers per shard (`GetObservers` composed with the GET call;
`none` = `GetObservers` error), and the metachain `getTokenProperties`
SC query outcome (`none` = `ExecuteQuery` error, otherwise `ReturnData`). -/
structure EsdtEnv where
  shardIDs : List Nat
  shardObservers : Nat → Option (List SupplyObsResp)
  metaQuery : Option (List String)

/-- Embedding of `esdtSuppliesProcessor.getShardSupply`. -/
def getShardSupply (env : EsdtEnv) (shardID : Nat) : Except EsdtErr (Option Int) :=
  match env.shardObservers shardID with
  | none => .error .observersError
  | some resps => getShardSupplyLoop resps

/-- The shard loop of `getSupplyFromShards`: metachain is skipped, any shard
error aborts, and adding a nil supply is the nil-pointer panic. -/
def getSupplyFromShardsLoop (env : EsdtEnv) : List Nat → Int → Except EsdtErr Int
  | [], acc => .ok acc
  | s :: rest, acc =>
    if s = metachainShardId then getSupplyFromShardsLoop env rest acc
    else
      match getShardSupply env s with
      | .error e => .error e
      | .ok none => .error .nilPointerPanic
      | .ok (some v) => getSupplyFromShardsLoop env rest (acc + v)

/-- Embedding of `esdtSuppliesProcessor.getSupplyFromShards`. -/
def getSupplyFromShards (env : EsdtEnv) : Except EsdtErr Int :=
  getSupplyFromShardsLoop env env.shardIDs 0

/-- Embedding of `isFungibleESDT`: fewer than 3 dash-separated parts. -/
def isFungibleESDT (tokenIdentifier : String) : Bool :=
  dashParts tokenIdentifier < 3

/-- Embedding of `esdtSuppliesProcessor.getInitialSupplyFromMeta`: fewer than
4 `ReturnData` entries yield zero, otherwise entry 3 goes through `SetString`
unguarded (`none` = nil big.Int). -/
def getInitialSupplyFromMeta (env : EsdtEnv) : Except EsdtErr (Option Int) :=
  match env.metaQuery with
  | none => .error .queryError
  | some rd =>
    if rd.length < 4 then .ok (some 0)
    else .ok (goParseDecimal (rd.getD 3 ""))

/-- Embedding of `esdtSuppliesProcessor.GetESDTSupply`; the returned string is
the decimal rendering of the accumulated big integer. -/
def GetESDTSupply (env : EsdtEnv) (tokenIdentifier : String) : Except EsdtErr String :=
  match getSupplyFromShards env with
  | .error e => .error e
  | .ok totalSupply =>
    if !isFungibleESDT tokenIdentifier then .ok (toString totalSupply)
    else
      match getInitialSupplyFromMeta env with
      | .error e => .error e
      | .ok none => .error .nilPointerPanic
      | .ok (some initialSupply) => .ok (toString (totalSupply + initialSupply))

/-! ### Transaction pool fetch (`GetTransactionsPoolForShard`) -/

/-- Outcome of one `CallGetRestEndPoint` on the transactions-pool path:
HTTP status, transport error flag, decoded pool payload. -/
structure PoolObsResp (α : Type) where
  code : Nat
  err : Bool
  pool : α
  deriving DecidableEq

/-- Failure modes of the transactions-pool fetch. -/
inductive TxPoolErr where
  | operationNotAllowed
  | observersError
  | transactionsNotFoundInPool
  deriving DecidableEq

/-- Collaborators of the pool fetch: the configuration flag and the pool
observers per shard (`getNodesInShard` composed with the GET call). -/
structure PoolEnv (α : Type) where
  shouldAllowEntireTxPoolFetch : Bool
  nodesInShard : Nat → Option (List (PoolObsResp α))

/-- Embedding of `getTxPoolFromObserver`: a transport error or a non-200
status yields no pool. -/
def getTxPoolFromObserver {α : Type} (r : PoolObsResp α) : Option α :=
  if r.err then none else if r.code ≠ 200 then none else some r.pool

/-- The observer loop of `getTxPoolForShard`. -/
def getTxPoolForShardLoop {α : Type} : List (PoolObsResp α) → Option α
  | [] => none
  | r :: rest =>
    match getTxPoolFromObserver r with
    | none => getTxPoolForShardLoop rest
    | some p => some p

/-- Number of observers contacted by the loop of `getTxPoolForShard`. -/
def txPoolLoopCalls {α : Type} : List (PoolObsResp α) → Nat
  | [] => 0
  | r :: rest =>
    match getTxPoolFromObserver r with
    | none => 1 + txPoolLoopCalls rest
    | some _ => 1

/-- Embedding of `TransactionProcessor.getTxPoolForShard`. -/
def getTxPoolForShard {α : Type} (env : PoolEnv α) (shardID : Nat) : Except TxPoolErr α :=
  match env.nodesInShard shardID with
  | none => .error .observersError
  | some observers =>
    match getTxPoolForShardLoop observers with
    | some p => .ok p
    | none => .error .transactionsNotFoundInPool

/-- Embedding of `TransactionProcessor.GetTransactionsPoolForShard`: the
`shouldAllowEntireTxPoolFetch` flag gates the whole operation. -/
def GetTransactionsPoolForShard {α : Type} (env : PoolEnv α) (shardID : Nat) :
    Except TxPoolErr α :=
  if !env.shouldAllowEntireTxPoolFetch then .error .operationNotAllowed
  else getTxPoolForShard env shardID

/-- Number of observers contacted by `GetTransactionsPoolForShard`. -/
def txPoolForShardObserverCalls {α : Type} (env : PoolEnv α) (shardID : Nat) : Nat :=
  if !env.shouldAllowEntireTxPoolFetch then 0
  else
    match env.nodesInShard shardID with
    | none => 0
    | some observers => txPoolLoopCalls observers

/-! ### Transaction hash (`ComputeTransactionHash`) -/

/-- Embedding of the canonical `transaction.Transaction` built by
`ComputeTransactionHash` before marshalling and hashing. -/
structure RegularTx where
  nonce : Nat
  value : Int
  rcvAddr : List Nat
  sndAddr : List Nat
  gasPrice : Nat
  gasLimit : Nat
  txData : List Nat
  chainID : List Nat
  version : Nat
  signature : List Nat
  deriving DecidableEq

/-- Collaborators of `ComputeTransactionHash`: the public-key codec and
`core.CalculateHash` over the injected marshalizer and hasher. -/
structure HashEnv where
  decode : String → Option (List Nat)
  calculateHash : RegularTx → Except Unit (List Nat)

/-- Errors of `ComputeTransactionHash`. -/
inductive CTHErr where
  | invalidTransactionValueField
  | invalidAddress
  | invalidSignatureBytes
  deriving DecidableEq

/-- Embedding of `TransactionProcessor.ComputeTransactionHash`; note that the
`CalculateHash` failure branch returns the empty string with a nil error. -/
def ComputeTransactionHash (env : HashEnv) (tx : Transaction) : Except CTHErr String :=
  match goParseDecimal tx.value with
  | none => .error .invalidTransactionValueField
  | some valueBig =>
    match env.decode tx.receiver with
    | none => .error .invalidAddress
    | some receiverAddress =>
      match env.decode tx.sender with
      | none => .error .invalidAddress
      | some senderAddress =>
        match goHexDecode tx.signature with
        | none => .error .invalidSignatureBytes
        | some signatureBytes =>
          match env.calculateHash
              ⟨tx.nonce, valueBig, receiverAddress, senderAddress, tx.gasPrice, tx.gasLimit,
                tx.txData, tx.chainID.data.map Char.toNat, tx.version, signatureBytes⟩ with
          | .error _ => .ok ""
          | .ok txHash => .ok (hexEncode txHash)

/-! ### Generic instances and small facts -/

instance {ε α : Type} [DecidableEq ε] [DecidableEq α] : DecidableEq (Except ε α) := fun a b =>
  match a, b with
  | .error e1, .error e2 =>
    if h : e1 = e2 then isTrue (by rw [h]) else isFalse (by intro hc; cases hc; exact h rfl)
  | .error _, .ok _ => isFalse (by intro hc; cases hc)
  | .ok _, .error _ => isFalse (by intro hc; cases hc)
  | .ok a1, .ok a2 =>
    if h : a1 = a2 then isTrue (by rw [h]) else isFalse (by intro hc; cases hc; exact h rfl)

/-- The empty signature hex-decodes to the empty byte slice, as in Go. -/
theorem goHexDecode_empty : goHexDecode "" = some [] := rfl

/-! ### Claim C5: `checkTransactionFields` rejection condition -/

/-- Claim C5: `checkTransactionFields` returns an `InvalidTxFields` error
exactly when the sender or the receiver fails address decode, the chain ID is
empty, the version is zero, or the signature is non-empty and fails hex
decode; a transaction satisfying none of these passes. -/
theorem claim_c5_check_tx_fields (decode : String → Option (List Nat)) (tx : Transaction) :
    (checkTransactionFields decode tx).isSome ↔
      (decode tx.sender = none ∨ decode tx.receiver = none ∨ tx.chainID = "" ∨
        tx.version = 0 ∨ (tx.signature ≠ "" ∧ goHexDecode tx.signature = none)) := by
  unfold checkTransactionFields
  cases hs : decode tx.sender with
  | none => simp
  | some sb =>
    cases hr : decode tx.receiver with
    | none => simp [hs]
    | some rb =>
      by_cases hc : tx.chainID = ""
      · simp [hs, hr, hc]
      · by_cases hv : tx.version = 0
        · simp [hs, hr, hc, hv]
        · cases hx : goHexDecode tx.signature with
          | none =>
            have hsig : tx.signature ≠ "" := by
              intro he
              rw [he, goHexDecode_empty] at hx
              cases hx
            simp [hs, hr, hc, hv, hsig, hx]
          | some bs => simp [hs, hr, hc, hv, hx]

/-! ### Claims C2 and C3: the `SendTransaction` failover loop -/

/-- Default observer response used with `List.getD`. -/
def obsRespDefault : ObsResp := ⟨0, "", none⟩

/-- A 404 or 408 status makes the send loop skip to the next observer,
whatever the transport error. -/
theorem sendTxLoop_skip (r : ObsResp) (rest : List ObsResp)
    (hsk : r.code = 404 ∨ r.code = 408) :
    sendTxLoop (r :: rest) = sendTxLoop rest ∧ sendTxCalls (r :: rest) = 1 + sendTxCalls rest := by
  have hne : ¬(r.code = 200 ∧ r.err = none) := by rcases hsk with h | h <;> simp [h]
  constructor
  · simp only [sendTxLoop]
    rw [if_neg hne, if_pos hsk]
  · simp only [sendTxCalls]
    rw [if_neg hne, if_pos hsk]

/-- A non-ok outcome whose status is neither 404 nor 408 stops the send loop
immediately and is returned to the caller. -/
theorem sendTxLoop_stop (r : ObsResp) (rest : List ObsResp)
    (hne : ¬(r.code = 200 ∧ r.err = none)) (h404 : r.code ≠ 404) (h408 : r.code ≠ 408) :
    sendTxLoop (r :: rest) = (r.code, "", r.err.map SendTxErr.transport) ∧
      sendTxCalls (r :: rest) = 1 := by
  have hsk : ¬(r.code = 404 ∨ r.code = 408) := by tauto
  constructor
  · simp only [sendTxLoop]
    rw [if_neg hne, if_neg hsk]
  · simp only [sendTxCalls]
    rw [if_neg hne, if_neg hsk]

/-- Concrete transaction used to exercise the C2 counterexample. -/
def txC2 : Transaction := ⟨0, "0", "rcvAddr", "sndAddr", 0, 0, [], "", "1", 1, 0⟩

/-- Observer outcomes for the C2 counterexample: a 429 first, then a healthy
observer that would have answered 200. -/
def respsC2 : List ObsResp := [⟨429, "", some "too many requests"⟩, ⟨200, "okHash", none⟩]

/-- Environment for the C2 counterexample. -/
def envC2 : SendEnv := ⟨fun _ => some [0], fun _ => some 0, fun _ => some respsC2⟩

/-- Claim C2 counterexample: a 429 response does not make `SendTransaction`
continue to the next observer; the 429 outcome is returned to the caller and
the second observer, which would have returned 200, is never contacted. -/
theorem claim_c2_counterexample :
    SendTransaction envC2 txC2 = (429, "", some (SendTxErr.transport "too many requests")) ∧
      sendTxCalls respsC2 = 1 := ⟨rfl, rfl⟩

/-- Claim C2 (amended): in the `SendTransaction` failover loop a non-ok
outcome is skipped exactly when its HTTP status is 404 or 408 (with or
without a transport error); any other non-ok outcome — including a 429 or a
transport error with a different status — is returned to the client at once. -/
theorem claim_c2_amended_skip_rule (r : ObsResp) (rest : List ObsResp) :
    ((r.code = 404 ∨ r.code = 408) →
      sendTxLoop (r :: rest) = sendTxLoop rest ∧
        sendTxCalls (r :: rest) = 1 + sendTxCalls rest) ∧
    (¬(r.code = 200 ∧ r.err = none) → r.code ≠ 404 → r.code ≠ 408 →
      sendTxLoop (r :: rest) = (r.code, "", r.err.map SendTxErr.transport) ∧
        sendTxCalls (r :: rest) = 1) :=
  ⟨fun h => sendTxLoop_skip r rest h, fun hne h404 h408 => sendTxLoop_stop r rest hne h404 h408⟩

/-- Witness for the amended C2: a 404 is skipped. -/
theorem claim_c2_witness :
    sendTxLoop [⟨404, "", none⟩, ⟨200, "h1", none⟩] = sendTxLoop [⟨200, "h1", none⟩] ∧
      sendTxCalls [⟨404, "", none⟩, ⟨200, "h1", none⟩] =
        1 + sendTxCalls [⟨200, "h1", none⟩] :=
  (claim_c2_amended_skip_rule ⟨404, "", none⟩ [⟨200, "h1", none⟩]).1 (Or.inl rfl)

/-- After `i` skip-class outcomes, a terminal outcome at position `i` is
returned as-is and the loop contacts exactly `i + 1` observers. -/
theorem sendTxLoop_terminal (resps : List ObsResp) (i : Nat) (hi : i < resps.length)
    (hskip : ∀ j, j < i → ((resps.getD j obsRespDefault).code = 404 ∨
      (resps.getD j obsRespDefault).code = 408))
    (h200 : (resps.getD i obsRespDefault).code ≠ 200)
    (h404 : (resps.getD i obsRespDefault).code ≠ 404)
    (h408 : (resps.getD i obsRespDefault).code ≠ 408) :
    sendTxLoop resps = ((resps.getD i obsRespDefault).code, "",
        (resps.getD i obsRespDefault).err.map SendTxErr.transport) ∧
      sendTxCalls resps = i + 1 := by
  induction resps generalizing i with
  | nil => simp at hi
  | cons r rest ih =>
    cases i with
    | zero =>
      simp only [List.getD_cons_zero] at h200 h404 h408 ⊢
      exact sendTxLoop_stop r rest (fun hc => h200 hc.1) h404 h408
    | succ k =>
      have h0 := hskip 0 (Nat.succ_pos k)
      rw [List.getD_cons_zero] at h0
      simp only [List.getD_cons_succ] at h200 h404 h408 ⊢
      have hi2 : k < rest.length := by simpa using hi
      have hskip2 : ∀ j, j < k → ((rest.getD j obsRespDefault).code = 404 ∨
          (rest.getD j obsRespDefault).code = 408) := by
        intro j hj
        have h1 := hskip (j + 1) (Nat.succ_lt_succ hj)
        simpa using h1
      obtain ⟨ha, hb⟩ := ih k hi2 hskip2 h200 h404 h408
      obtain ⟨hs1, hs2⟩ := sendTxLoop_skip r rest h0
      refine ⟨by rw [hs1, ha], by rw [hs2, hb]; omega⟩

/-- Claim C3: if the observers before position `i` all returned skip-class
outcomes (404/408) and the observer at position `i` returns a status that is
neither 200 nor skip-class (404, 408, 429) with no transport error, then
`SendTransaction` returns exactly that status together with the backend error
of that call, and contacts no observer beyond position `i`. -/
theorem claim_c3_terminal_status (env : SendEnv) (tx : Transaction) (resps : List ObsResp)
    (i : Nat) (senderBuff : List Nat) (shardID : Nat)
    (hchk : checkTransactionFields env.decode tx = none)
    (hdec : env.decode tx.sender = some senderBuff)
    (hshard : env.computeShardId senderBuff = some shardID)
    (hobs : env.getObservers shardID = some resps)
    (hi : i < resps.length)
    (hskip : ∀ j, j < i → ((resps.getD j obsRespDefault).code = 404 ∨
      (resps.getD j obsRespDefault).code = 408))
    (h200 : (resps.getD i obsRespDefault).code ≠ 200)
    (h404 : (resps.getD i obsRespDefault).code ≠ 404)
    (h408 : (resps.getD i obsRespDefault).code ≠ 408)
    (h429 : (resps.getD i obsRespDefault).code ≠ 429)
    (herr : (resps.getD i obsRespDefault).err = none) :
    SendTransaction env tx = ((resps.getD i obsRespDefault).code, "", none) ∧
      sendTxCalls resps = i + 1 := by
  have hred : SendTransaction env tx = sendTxLoop resps := by
    simp only [SendTransaction, hchk, hdec, hshard, hobs]
  obtain ⟨ha, hb⟩ := sendTxLoop_terminal resps i hi hskip h200 h404 h408
  rw [herr] at ha
  simp only [Option.map_none'] at ha
  exact ⟨by rw [hred, ha], hb⟩

/-- Observer outcomes for the C3 witness: a skipped 404, then a 400 terminal
rejection, then a healthy observer that is never reached. -/
def respsC3 : List ObsResp := [⟨404, "", none⟩, ⟨400, "", none⟩, ⟨200, "h2", none⟩]

/-- Environment for the C3 witness. -/
def envC3 : SendEnv := ⟨fun _ => some [0], fun _ => some 0, fun _ => some respsC3⟩

/-- Transaction for the C3 witness. -/
def txC3 : Transaction := ⟨0, "0", "r3", "s3", 0, 0, [], "", "1", 1, 0⟩

/-- Witness for C3: the 400 from the second observer is returned and only two
observers are contacted. -/
theorem claim_c3_witness :
    SendTransaction envC3 txC3 = (400, "", none) ∧ sendTxCalls respsC3 = 2 := by
  have h := claim_c3_terminal_status envC3 txC3 respsC3 1 [0] 0 rfl rfl rfl rfl
    (by decide) (by decide) (by decide) (by decide) (by decide) (by decide) rfl
  exact ⟨h.1.trans rfl, h.2⟩

/-! ### Claim C7: `ComputeTransactionHash` swallows hashing failures -/

/-- Claim C7: when the value parses, the sender, receiver and signature all
decode, and the marshal-then-hash step fails, `ComputeTransactionHash`
returns the empty string with a nil error. -/
theorem claim_c7_hash_failure_nil_error (env : HashEnv) (tx : Transaction)
    (valueBig : Int) (receiverAddress senderAddress signatureBytes : List Nat)
    (hval : goParseDecimal tx.value = some valueBig)
    (hrcv : env.decode tx.receiver = some receiverAddress)
    (hsnd : env.decode tx.sender = some senderAddress)
    (hsig : goHexDecode tx.signature = some signatureBytes)
    (hhash : env.calculateHash ⟨tx.nonce, valueBig, receiverAddress, senderAddress, tx.gasPrice,
        tx.gasLimit, tx.txData, tx.chainID.data.map Char.toNat, tx.version, signatureBytes⟩ =
      .error ()) :
    ComputeTransactionHash env tx = .ok "" := by
  simp only [ComputeTransactionHash, hval, hrcv, hsnd, hsig, hhash]

/-- Environment for the C7 witness: a codec that always decodes and a hasher
that always fails. -/
def envC7 : HashEnv := ⟨fun _ => some [1], fun _ => .error ()⟩

/-- Transaction for the C7 witness. -/
def txC7 : Transaction := ⟨0, "0", "r7", "s7", 0, 0, [], "", "1", 1, 0⟩

/-- Witness for C7: the hashing failure yields `ok ""`, not an error. -/
theorem claim_c7_witness : ComputeTransactionHash envC7 txC7 = .ok "" :=
  claim_c7_hash_failure_nil_error envC7 txC7 0 [1] [1] [] rfl rfl rfl rfl rfl

/-! ### Claim C8: unguarded `SetString` in the supplies processor -/

/-- Environment for C8: a single worker shard whose observer reports a supply
string that is not a decimal number. -/
def envC8 : EsdtEnv := ⟨[0], fun _ => some [⟨false, "notanumber"⟩], none⟩

/-- Environment for the C8 metachain variant: a healthy shard supply but a
`getTokenProperties` response whose entry 3 is not a decimal number. -/
def envC8meta : EsdtEnv := ⟨[0], fun _ => some [⟨false, "5"⟩], some ["p0", "p1", "p2", "zz"]⟩

/-- Claim C8: a non-empty, non-decimal supply string (or `returnData[3]`)
passes the unguarded `SetString`, `getShardSupply` hands back a nil big
integer with a nil error, and the accumulating `Add` dereferences nil. -/
theorem claim_c8_nil_deref :
    "notanumber" ≠ "" ∧ goParseDecimal "notanumber" = none ∧
      getShardSupply envC8 0 = .ok none ∧
      GetESDTSupply envC8 "TKN-1a2b3c" = .error .nilPointerPanic ∧
      goParseDecimal "zz" = none ∧
      GetESDTSupply envC8meta "TKN-1a2b3c" = .error .nilPointerPanic :=
  ⟨by decide, rfl, rfl, rfl, rfl, rfl⟩

/-! ### Claim C10: the pool-fetch configuration gate -/

/-- Claim C10: with `shouldAllowEntireTxPoolFetch` unset,
`GetTransactionsPoolForShard` fails with `OperationNotAllowed` and contacts
no observer. -/
theorem claim_c10_pool_gate {α : Type} (env : PoolEnv α) (shardID : Nat)
    (h : env.shouldAllowEntireTxPoolFetch = false) :
    GetTransactionsPoolForShard env shardID = .error .operationNotAllowed ∧
      txPoolForShardObserverCalls env shardID = 0 := by
  constructor
  · unfold GetTransactionsPoolForShard
    rw [h]
    rfl
  · unfold txPoolForShardObserverCalls
    rw [h]
    rfl

/-- Environment for the C10 witness: the flag is off while a healthy observer
exists. -/
def envC10 : PoolEnv Nat := ⟨false, fun _ => some [⟨200, false, 7⟩]⟩

/-- Witness for C10. -/
theorem claim_c10_witness :
    GetTransactionsPoolForShard envC10 0 = .error .operationNotAllowed ∧
      txPoolForShardObserverCalls envC10 0 = 0 :=
  claim_c10_pool_gate envC10 0 rfl

/-! ### Claim C1: properties of `getScResultsUnion` -/

/-- Lookup misses exactly the hashes absent from the accumulator. -/
theorem scrFind_eq_none (m : List ApiSmartContractResult) (h : String) :
    scrFind m h = none ↔ h ∉ m.map ApiSmartContractResult.hash := by
  rw [scrFind, List.find?_eq_none]
  constructor
  · intro hall hmem
    obtain ⟨x, hx, hxh⟩ := List.mem_map.mp hmem
    exact hall x hx (by simp [hxh])
  · intro hnm x hx hbx
    apply hnm
    have hxh : x.hash = h := by simpa using hbx
    rw [← hxh]
    exact List.mem_map_of_mem ApiSmartContractResult.hash hx

/-- A found entry belongs to the accumulator and carries the looked-up hash. -/
theorem scrFind_mem (m : List ApiSmartContractResult) (h : String) (v : ApiSmartContractResult)
    (hf : scrFind m h = some v) : v ∈ m ∧ v.hash = h := by
  refine ⟨List.mem_of_find?_eq_some hf, ?_⟩
  have hb := List.find?_some hf
  simpa using hb

/-- With pairwise-distinct hashes, `scrFind` returns any member that carries
the looked-up hash. -/
theorem scrFind_unique (m : List ApiSmartContractResult) (h : String) (x : ApiSmartContractResult)
    (hnd : (m.map ApiSmartContractResult.hash).Nodup) (hx : x ∈ m) (hxh : x.hash = h) :
    scrFind m h = some x := by
  induction m with
  | nil => cases hx
  | cons y rest ih =>
    rw [List.map_cons, List.nodup_cons] at hnd
    rcases List.mem_cons.mp hx with rfl | hx2
    · rw [scrFind, List.find?_cons_of_pos _ (by simp [hxh])]
    · have hyh : ¬(y.hash = h) := fun he =>
        hnd.1 (by
          rw [he, ← hxh]
          exact List.mem_map_of_mem ApiSmartContractResult.hash hx2)
      rw [scrFind, List.find?_cons_of_neg _ (by simp [hyh])]
      exact ih hnd.2 hx2

/-- The in-place replacement performed on a hash collision does not change
the hash sequence of the accumulator. -/
theorem map_hash_replace (merge : List String → List String → List String)
    (scr prev : ApiSmartContractResult) (m : List ApiSmartContractResult) :
    ((m.map (fun x => if x.hash == scr.hash
        then { scr with logs := merge prev.logs scr.logs } else x)).map
      ApiSmartContractResult.hash) = m.map ApiSmartContractResult.hash := by
  induction m with
  | nil => rfl
  | cons y rest ih =>
    simp only [List.map_cons, ih]
    by_cases hy : y.hash = scr.hash
    · simp [hy]
    · simp [hy]

/-- Hash sequence of a step on a collision. -/
theorem scrStep_hashes_found (merge : List String → List String → List String)
    (m : List ApiSmartContractResult) (scr prev : ApiSmartContractResult)
    (hf : scrFind m scr.hash = some prev) :
    (scrStep merge m scr).map ApiSmartContractResult.hash =
      m.map ApiSmartContractResult.hash := by
  unfold scrStep
  rw [hf]
  exact map_hash_replace merge scr prev m

/-- Hash sequence of a step on a fresh hash. -/
theorem scrStep_hashes_none (merge : List String → List String → List String)
    (m : List ApiSmartContractResult) (scr : ApiSmartContractResult)
    (hf : scrFind m scr.hash = none) :
    (scrStep merge m scr).map ApiSmartContractResult.hash =
      m.map ApiSmartContractResult.hash ++ [scr.hash] := by
  unfold scrStep
  rw [hf]
  simp

/-- Hash membership after one step. -/
theorem scrStep_mem_hashes (merge : List String → List String → List String)
    (m : List ApiSmartContractResult) (scr : ApiSmartContractResult) (h : String) :
    h ∈ (scrStep merge m scr).map ApiSmartContractResult.hash ↔
      h ∈ m.map ApiSmartContractResult.hash ∨ h = scr.hash := by
  cases hf : scrFind m scr.hash with
  | none =>
    rw [scrStep_hashes_none merge m scr hf]
    simp
  | some prev =>
    rw [scrStep_hashes_found merge m scr prev hf]
    have hmem := scrFind_mem m scr.hash prev hf
    constructor
    · exact Or.inl
    · rintro (hm | rfl)
      · exact hm
      · rw [← hmem.2]
        exact List.mem_map_of_mem ApiSmartContractResult.hash hmem.1

/-- One step keeps the hash sequence duplicate-free. -/
theorem scrStep_nodup (merge : List String → List String → List String)
    (m : List ApiSmartContractResult) (scr : ApiSmartContractResult)
    (hnd : (m.map ApiSmartContractResult.hash).Nodup) :
    ((scrStep merge m scr).map ApiSmartContractResult.hash).Nodup := by
  cases hf : scrFind m scr.hash with
  | none =>
    rw [scrStep_hashes_none merge m scr hf]
    have hni := (scrFind_eq_none m scr.hash).mp hf
    simp [List.nodup_append, hnd, hni]
  | some prev =>
    rw [scrStep_hashes_found merge m scr prev hf]
    exact hnd

/-- The whole fold keeps the hash sequence duplicate-free. -/
theorem scrFold_nodup (merge : List String → List String → List String)
    (l : List ApiSmartContractResult) (m : List ApiSmartContractResult)
    (hnd : (m.map ApiSmartContractResult.hash).Nodup) :
    ((l.foldl (scrStep merge) m).map ApiSmartContractResult.hash).Nodup := by
  induction l generalizing m with
  | nil => exact hnd
  | cons scr rest ih => exact ih _ (scrStep_nodup merge m scr hnd)

/-- Hash membership after the whole fold. -/
theorem scrFold_mem_hashes (merge : List String → List String → List String)
    (l : List ApiSmartContractResult) (m : List ApiSmartContractResult) (h : String) :
    h ∈ (l.foldl (scrStep merge) m).map ApiSmartContractResult.hash ↔
      h ∈ m.map ApiSmartContractResult.hash ∨ h ∈ l.map ApiSmartContractResult.hash := by
  induction l generalizing m with
  | nil => simp
  | cons scr rest ih =>
    simp only [List.foldl_cons, List.map_cons, List.mem_cons]
    rw [ih, scrStep_mem_hashes]
    tauto

/-- Mapping with an `f` that preserves the predicate and fixes every
predicate-satisfying element leaves `find?` unchanged. -/
theorem find_map_of_preserve (p : ApiSmartContractResult → Bool)
    (f : ApiSmartContractResult → ApiSmartContractResult)
    (hp : ∀ x, p (f x) = p x) (hfix : ∀ x, p x = true → f x = x) :
    ∀ m : List ApiSmartContractResult, (m.map f).find? p = m.find? p := by
  intro m
  induction m with
  | nil => rfl
  | cons y rest ih =>
    simp only [List.map_cons]
    cases hpy : p y with
    | true =>
      rw [List.find?_cons_of_pos _ (by rw [hp]; exact hpy),
        List.find?_cons_of_pos _ hpy, hfix y hpy]
    | false =>
      rw [List.find?_cons_of_neg _ (by simp [hp y, hpy]),
        List.find?_cons_of_neg _ (by simp [hpy])]
      exact ih

/-- A step leaves lookups of other hashes untouched. -/
theorem scrStep_find_other (merge : List String → List String → List String)
    (m : List ApiSmartContractResult) (scr : ApiSmartContractResult) (h : String)
    (hne : h ≠ scr.hash) :
    scrFind (scrStep merge m scr) h = scrFind m h := by
  unfold scrStep
  cases hf : scrFind m scr.hash with
  | none =>
    show scrFind (m ++ [scr]) h = scrFind m h
    unfold scrFind
    rw [List.find?_append, List.find?_cons_of_neg _ (by simp [Ne.symm hne])]
    cases m.find? (fun x => x.hash == h) <;> rfl
  | some prev =>
    apply find_map_of_preserve
    · intro x
      by_cases hx : x.hash = scr.hash
      · simp [hx]
      · simp [hx]
    · intro x hpx
      have hxh : x.hash = h := by simpa using hpx
      simp [hxh, hne]

/-- Inserting a fresh hash makes it found. -/
theorem scrStep_find_self_none (merge : List String → List String → List String)
    (m : List ApiSmartContractResult) (scr : ApiSmartContractResult)
    (hf : scrFind m scr.hash = none) :
    scrFind (scrStep merge m scr) scr.hash = some scr := by
  unfold scrStep
  rw [hf]
  show scrFind (m ++ [scr]) scr.hash = some scr
  unfold scrFind
  unfold scrFind at hf
  rw [List.find?_append, hf, List.find?_cons_of_pos _ (by simp)]
  rfl

/-- In the collision replacement, the looked-up hash finds the merged copy. -/
theorem find_map_replace_self (merge : List String → List String → List String)
    (scr prev : ApiSmartContractResult) :
    ∀ m : List ApiSmartContractResult,
      m.find? (fun x => x.hash == scr.hash) = some prev →
      (m.map (fun x => if x.hash == scr.hash
          then { scr with logs := merge prev.logs scr.logs } else x)).find?
        (fun x => x.hash == scr.hash) = some { scr with logs := merge prev.logs scr.logs } := by
  intro m
  induction m with
  | nil => intro hf; cases hf
  | cons y rest ih =>
    intro hf
    by_cases hy : (y.hash == scr.hash) = true
    · simp only [List.map_cons, if_pos hy]
      rw [List.find?_cons_of_pos _ (by simp)]
    · simp only [List.map_cons, if_neg hy]
      rw [@List.find?_cons_of_neg _ (fun x => x.hash == scr.hash) y rest hy] at hf
      rw [@List.find?_cons_of_neg _ (fun x => x.hash == scr.hash) y _ hy]
      exact ih hf

/-- A collision stores the later copy with the merged logs, and it is found. -/
theorem scrStep_find_self_found (merge : List String → List String → List String)
    (m : List ApiSmartContractResult) (scr prev : ApiSmartContractResult)
    (hf : scrFind m scr.hash = some prev) :
    scrFind (scrStep merge m scr) scr.hash =
      some { scr with logs := merge prev.logs scr.logs } := by
  unfold scrStep
  rw [hf]
  exact find_map_replace_self merge scr prev m hf

/-- Lookups of hashes outside the processed list pass through the fold. -/
theorem scrFold_find_other (merge : List String → List String → List String)
    (l : List ApiSmartContractResult) (h : String) :
    ∀ m : List ApiSmartContractResult, h ∉ l.map ApiSmartContractResult.hash →
      scrFind (l.foldl (scrStep merge) m) h = scrFind m h := by
  induction l with
  | nil => intro m _; rfl
  | cons scr rest ih =>
    intro m hnl
    simp only [List.map_cons, List.mem_cons] at hnl
    push_neg at hnl
    rw [List.foldl_cons, ih _ hnl.2, scrStep_find_other merge m scr h hnl.1]

/-- Folding a list with pairwise-distinct hashes over an accumulator that
misses `s.hash` makes `s` the stored entry for its hash. -/
theorem scrFold_find_first (merge : List String → List String → List String)
    (l : List ApiSmartContractResult) (s : ApiSmartContractResult) :
    ∀ m : List ApiSmartContractResult, (l.map ApiSmartContractResult.hash).Nodup →
      scrFind m s.hash = none → s ∈ l →
      scrFind (l.foldl (scrStep merge) m) s.hash = some s := by
  induction l with
  | nil => intro m _ _ hs; cases hs
  | cons x rest ih =>
    intro m hnd hf hs
    rw [List.map_cons, List.nodup_cons] at hnd
    rcases List.mem_cons.mp hs with rfl | hs2
    · rw [List.foldl_cons, scrFold_find_other merge rest s.hash _ hnd.1,
        scrStep_find_self_none merge m s hf]
    · have hxs : ¬(x.hash = s.hash) := fun he =>
        hnd.1 (by
          rw [he]
          exact List.mem_map_of_mem ApiSmartContractResult.hash hs2)
      rw [List.foldl_cons]
      exact ih _ hnd.2 (by rw [scrStep_find_other merge m x s.hash (fun he => hxs he.symm)]; exact hf) hs2

/-- Folding a list with pairwise-distinct hashes over an accumulator that
already stores `prev` under `d.hash` makes the entry for `d.hash` the copy
`d` with logs `merge prev.logs d.logs`. -/
theorem scrFold_find_merge (merge : List String → List String → List String)
    (l : List ApiSmartContractResult) (d prev : ApiSmartContractResult) :
    ∀ m : List ApiSmartContractResult, (l.map ApiSmartContractResult.hash).Nodup →
      scrFind m d.hash = some prev → d ∈ l →
      scrFind (l.foldl (scrStep merge) m) d.hash =
        some { d with logs := merge prev.logs d.logs } := by
  induction l with
  | nil => intro m _ _ hd; cases hd
  | cons x rest ih =>
    intro m hnd hf hd
    rw [List.map_cons, List.nodup_cons] at hnd
    rcases List.mem_cons.mp hd with rfl | hd2
    · rw [List.foldl_cons, scrFold_find_other merge rest d.hash _ hnd.1,
        scrStep_find_self_found merge m d prev hf]
    · have hxd : ¬(x.hash = d.hash) := fun he =>
        hnd.1 (by
          rw [he]
          exact List.mem_map_of_mem ApiSmartContractResult.hash hd2)
      rw [List.foldl_cons]
      exact ih _ hnd.2 (by rw [scrStep_find_other merge m x d.hash (fun he => hxd he.symm)]; exact hf) hd2

/-- Claim C1: merging a cross-shard transaction pair with results enabled
yields an SCR list without duplicate hashes in which every hash of either
input list occurs exactly once, and for every hash present in both lists the
retained SCR is the destination copy with logs
`MergeLogEvents(sourceLogs, destinationLogs)`. -/
theorem claim_c1_scr_union (merge : List String → List String → List String)
    (sourceTx destTx : ApiTransactionResult)
    (hsrc : (sourceTx.scResults.map ApiSmartContractResult.hash).Nodup)
    (hdst : (destTx.scResults.map ApiSmartContractResult.hash).Nodup) :
    (((mergeScResultsFromSourceAndDestIfNeeded merge sourceTx destTx true).scResults.map
        ApiSmartContractResult.hash).Nodup) ∧
    (∀ h : String,
      (h ∈ sourceTx.scResults.map ApiSmartContractResult.hash ∨
        h ∈ destTx.scResults.map ApiSmartContractResult.hash) →
      ((mergeScResultsFromSourceAndDestIfNeeded merge sourceTx destTx true).scResults.map
          ApiSmartContractResult.hash).count h = 1) ∧
    (∀ s ∈ sourceTx.scResults, ∀ d ∈ destTx.scResults, s.hash = d.hash →
      ({ d with logs := merge s.logs d.logs } ∈
          (mergeScResultsFromSourceAndDestIfNeeded merge sourceTx destTx true).scResults ∧
        ∀ x ∈ (mergeScResultsFromSourceAndDestIfNeeded merge sourceTx destTx true).scResults,
          x.hash = d.hash → x = { d with logs := merge s.logs d.logs })) := by
  have hres : (mergeScResultsFromSourceAndDestIfNeeded merge sourceTx destTx true).scResults =
      (sourceTx.scResults ++ destTx.scResults).foldl (scrStep merge) [] := rfl
  have hnodup : (((sourceTx.scResults ++ destTx.scResults).foldl (scrStep merge) []).map
      ApiSmartContractResult.hash).Nodup :=
    scrFold_nodup merge _ [] (by simp)
  refine ⟨by rw [hres]; exact hnodup, ?_, ?_⟩
  · intro h hmem
    rw [hres]
    have hin : h ∈ (((sourceTx.scResults ++ destTx.scResults).foldl (scrStep merge) []).map
        ApiSmartContractResult.hash) := by
      rw [scrFold_mem_hashes]
      simp only [List.map_append, List.mem_append]
      tauto
    exact List.count_eq_one_of_mem hnodup hin
  · intro s hsm d hdm hsd
    have hsplit : (sourceTx.scResults ++ destTx.scResults).foldl (scrStep merge) [] =
        destTx.scResults.foldl (scrStep merge) (sourceTx.scResults.foldl (scrStep merge) []) :=
      List.foldl_append _ _ _ _
    have h1 : scrFind (sourceTx.scResults.foldl (scrStep merge) []) d.hash = some s := by
      rw [← hsd]
      exact scrFold_find_first merge sourceTx.scResults s [] hsrc rfl hsm
    have h2 : scrFind ((sourceTx.scResults ++ destTx.scResults).foldl (scrStep merge) [])
        d.hash = some { d with logs := merge s.logs d.logs } := by
      rw [hsplit]
      exact scrFold_find_merge merge destTx.scResults d s _ hdst h1 hdm
    rw [hres]
    have hmem := scrFind_mem _ _ _ h2
    refine ⟨hmem.1, ?_⟩
    intro x hx hxh
    have hu := scrFind_unique _ d.hash x hnodup hx hxh
    rw [h2] at hu
    exact (Option.some.inj hu).symm

/-- Concrete logs merger for the C1 witness. -/
def mergeLogsC1 : List String → List String → List String := fun a b => a ++ b

/-- Source-shard transaction copy for the C1 witness (scenario S4). -/
def srcTxC1 : ApiTransactionResult := ⟨[⟨"A", ["L1"], 1⟩, ⟨"B", ["L2"], 2⟩], 0, 1⟩

/-- Destination-shard transaction copy for the C1 witness (scenario S4). -/
def dstTxC1 : ApiTransactionResult := ⟨[⟨"A", ["L3"], 3⟩, ⟨"C", ["L4"], 4⟩], 0, 1⟩

/-- Witness for C1 on scenario S4 of the specification. -/
theorem claim_c1_witness :
    (((mergeScResultsFromSourceAndDestIfNeeded mergeLogsC1 srcTxC1 dstTxC1 true).scResults.map
        ApiSmartContractResult.hash).Nodup) ∧
    (∀ h : String,
      (h ∈ srcTxC1.scResults.map ApiSmartContractResult.hash ∨
        h ∈ dstTxC1.scResults.map ApiSmartContractResult.hash) →
      ((mergeScResultsFromSourceAndDestIfNeeded mergeLogsC1 srcTxC1 dstTxC1 true).scResults.map
          ApiSmartContractResult.hash).count h = 1) ∧
    (∀ s ∈ srcTxC1.scResults, ∀ d ∈ dstTxC1.scResults, s.hash = d.hash →
      ({ d with logs := mergeLogsC1 s.logs d.logs } ∈
          (mergeScResultsFromSourceAndDestIfNeeded mergeLogsC1 srcTxC1 dstTxC1 true).scResults ∧
        ∀ x ∈ (mergeScResultsFromSourceAndDestIfNeeded mergeLogsC1 srcTxC1 dstTxC1 true).scResults,
          x.hash = d.hash → x = { d with logs := mergeLogsC1 s.logs d.logs })) :=
  claim_c1_scr_union mergeLogsC1 srcTxC1 dstTxC1 (by decide) (by decide)

/-! ### Claim C4: `GetESDTSupply` aggregation -/

/-- The shard loop sums the supplies of every non-metachain shard when each
such shard reports a parsed value. -/
theorem getSupplyFromShardsLoop_sum (env : EsdtEnv) (v : Nat → Int) :
    ∀ (l : List Nat) (acc : Int),
    (∀ s ∈ l, s ≠ metachainShardId → getShardSupply env s = .ok (some (v s))) →
    getSupplyFromShardsLoop env l acc =
      .ok (acc + ((l.filter (fun s => s != metachainShardId)).map v).sum) := by
  intro l
  induction l with
  | nil => intro acc _; simp [getSupplyFromShardsLoop]
  | cons s rest ih =>
    intro acc hv
    simp only [getSupplyFromShardsLoop]
    by_cases hm : s = metachainShardId
    · rw [if_pos hm, ih acc (fun x hx => hv x (List.mem_cons_of_mem _ hx))]
      simp [List.filter_cons, hm]
    · rw [if_neg hm, hv s (List.mem_cons_self _ _) hm]
      show getSupplyFromShardsLoop env rest (acc + v s) =
        .ok (acc + (((s :: rest).filter (fun x => x != metachainShardId)).map v).sum)
      rw [ih (acc + v s) (fun x hx => hv x (List.mem_cons_of_mem _ hx))]
      simp [List.filter_cons, hm, Int.add_assoc]

/-- Claim C4: `GetESDTSupply` returns the sum of the non-metachain shard
supplies; when the token has fewer than 3 dash-parts it additionally adds the
initial supply from the metachain SC query, which is 0 when `returnData` has
fewer than 4 entries and otherwise entry index 3 parsed as decimal; a token
with 3 or more dash-parts gets the per-shard sum only. -/
theorem claim_c4_esdt_supply (env : EsdtEnv) (token : String) (v : Nat → Int)
    (hv : ∀ s ∈ env.shardIDs, s ≠ metachainShardId → getShardSupply env s = .ok (some (v s))) :
    (isFungibleESDT token = false →
      GetESDTSupply env token =
        .ok (toString (((env.shardIDs.filter (fun s => s != metachainShardId)).map v).sum))) ∧
    (∀ rd : List String, isFungibleESDT token = true → env.metaQuery = some rd →
      rd.length < 4 →
      GetESDTSupply env token =
        .ok (toString (((env.shardIDs.filter (fun s => s != metachainShardId)).map v).sum))) ∧
    (∀ (rd : List String) (i : Int), isFungibleESDT token = true → env.metaQuery = some rd →
      4 ≤ rd.length → goParseDecimal (rd.getD 3 "") = some i →
      GetESDTSupply env token =
        .ok (toString ((((env.shardIDs.filter (fun s => s != metachainShardId)).map v).sum) + i))) := by
  have hshards : getSupplyFromShards env =
      .ok (((env.shardIDs.filter (fun s => s != metachainShardId)).map v).sum) := by
    unfold getSupplyFromShards
    rw [getSupplyFromShardsLoop_sum env v env.shardIDs 0 hv]
    rw [Int.zero_add]
  refine ⟨?_, ?_, ?_⟩
  · intro hfun
    simp only [GetESDTSupply, hshards, hfun]
    rfl
  · intro rd hfun hmeta hlen
    simp only [GetESDTSupply, hfun, hshards, Bool.not_true, Bool.false_eq_true, if_false,
      getInitialSupplyFromMeta, hmeta, if_pos hlen]
    rw [Int.add_zero]
  · intro rd i hfun hmeta hlen hparse
    simp only [GetESDTSupply, hfun, hshards, Bool.not_true, Bool.false_eq_true, if_false,
      getInitialSupplyFromMeta, hmeta, if_neg (by omega : ¬rd.length < 4), hparse]

/-- Environment for the C4 witness (scenario S6): two worker shards reporting
100 and 50, a metachain entry, and a `getTokenProperties` response whose
entry 3 is 25. -/
def envC4 : EsdtEnv :=
  ⟨[0, 1, metachainShardId],
    fun s => if s = 0 then some [⟨false, "100"⟩] else if s = 1 then some [⟨false, "50"⟩] else none,
    some ["p0", "p1", "p2", "25"]⟩

/-- Parsed per-shard supplies for the C4 witness. -/
def supplyValC4 : Nat → Int := fun s => if s = 0 then 100 else 50

/-- Witness for C4 on scenario S6: the fungible token `TKN-000001` yields
100 + 50 + 25 = 175. -/
theorem claim_c4_witness : GetESDTSupply envC4 "TKN-000001" = .ok "175" := by
  have hv : ∀ s ∈ envC4.shardIDs, s ≠ metachainShardId →
      getShardSupply envC4 s = .ok (some (supplyValC4 s)) := by
    intro s hs hne
    have hs2 : s = 0 ∨ s = 1 ∨ s = metachainShardId := by simpa [envC4] using hs
    rcases hs2 with rfl | rfl | rfl
    · rfl
    · rfl
    · exact absurd rfl hne
  have h := (claim_c4_esdt_supply envC4 "TKN-000001" supplyValC4 hv).2.2
    ["p0", "p1", "p2", "25"] 25 (by decide) rfl (by decide) (by decide)
  exact h.trans (by decide)

/-! ### Claims C6 and C9: `SendMultipleTransactions` -/

/-- Every transaction of a group after an insertion either was in a group of
the same shard before or is the inserted one in the shard it targets. -/
theorem groupsInsert_txMem :
    ∀ (m : List (Nat × List Transaction)) (k : Nat) (tx : Transaction)
      (p : Nat × List Transaction), p ∈ groupsInsert m k tx → ∀ t ∈ p.2,
      (∃ q ∈ m, q.1 = p.1 ∧ t ∈ q.2) ∨ (t = tx ∧ p.1 = k)
  | [], k, tx, p, hp, t, ht => by
    simp only [groupsInsert, List.mem_singleton] at hp
    subst hp
    right
    simp only [List.mem_singleton] at ht
    exact ⟨ht, rfl⟩
  | (k2, l) :: rest, k, tx, p, hp, t, ht => by
    simp only [groupsInsert] at hp
    by_cases hk : k2 = k
    · rw [if_pos hk] at hp
      rcases List.mem_cons.mp hp with rfl | hp2
      · rcases List.mem_append.mp ht with htl | htx
        · exact Or.inl ⟨(k2, l), List.mem_cons_self _ _, rfl, htl⟩
        · exact Or.inr ⟨by simpa using htx, hk⟩
      · exact Or.inl ⟨p, List.mem_cons_of_mem _ hp2, rfl, ht⟩
    · rw [if_neg hk] at hp
      rcases List.mem_cons.mp hp with rfl | hp2
      · exact Or.inl ⟨(k2, l), List.mem_cons_self _ _, rfl, ht⟩
      · rcases groupsInsert_txMem rest k tx p hp2 t ht with ⟨q, hq, hq1, hqt⟩ | h
        · exact Or.inl ⟨q, List.mem_cons_of_mem _ hq, hq1, hqt⟩
        · exact Or.inr h

/-- Key sequence after an insertion. -/
theorem groupsInsert_keys :
    ∀ (m : List (Nat × List Transaction)) (k : Nat) (tx : Transaction),
      (groupsInsert m k tx).map Prod.fst =
        if k ∈ m.map Prod.fst then m.map Prod.fst else m.map Prod.fst ++ [k]
  | [], k, tx => by simp [groupsInsert]
  | (k2, l) :: rest, k, tx => by
    simp only [groupsInsert]
    by_cases hk : k2 = k
    · rw [if_pos hk]
      simp [hk]
    · rw [if_neg hk]
      simp only [List.map_cons]
      rw [groupsInsert_keys rest k tx]
      by_cases hkr : k ∈ rest.map Prod.fst
      · rw [if_pos hkr, if_pos (by simp [hkr])]
      · rw [if_neg hkr, if_neg (by simp [Ne.symm hk, hkr])]
        simp

/-- Insertion keeps the group keys duplicate-free. -/
theorem groupsInsert_keys_nodup (m : List (Nat × List Transaction)) (k : Nat) (tx : Transaction)
    (hnd : (m.map Prod.fst).Nodup) : ((groupsInsert m k tx).map Prod.fst).Nodup := by
  rw [groupsInsert_keys]
  by_cases hk : k ∈ m.map Prod.fst
  · rw [if_pos hk]
    exact hnd
  · rw [if_neg hk]
    simp [List.nodup_append, hnd, hk]

/-- All indexes stored in the groups are below `n`. -/
def GroupsBound (m : List (Nat × List Transaction)) (n : Nat) : Prop :=
  ∀ p ∈ m, ∀ t ∈ p.2, t.index < n

/-- Transactions in groups of different shards carry different indexes. -/
def GroupsCross (m : List (Nat × List Transaction)) : Prop :=
  ∀ p ∈ m, ∀ q ∈ m, ∀ t ∈ p.2, ∀ u ∈ q.2, p.1 ≠ q.1 → t.index ≠ u.index

/-- Boundedness is monotone in the bound. -/
theorem GroupsBound.mono {m : List (Nat × List Transaction)} {a b : Nat}
    (h : GroupsBound m a) (hab : a ≤ b) : GroupsBound m b :=
  fun p hp t ht => lt_of_lt_of_le (h p hp t ht) hab

/-- Inserting a transaction with a bounded index preserves the bound. -/
theorem groupsInsert_bound (m : List (Nat × List Transaction)) (k : Nat) (tx : Transaction)
    (n : Nat) (hb : GroupsBound m n) (htx : tx.index < n) :
    GroupsBound (groupsInsert m k tx) n := by
  intro p hp t ht
  rcases groupsInsert_txMem m k tx p hp t ht with ⟨q, hq, _, hqt⟩ | ⟨rfl, _⟩
  · exact hb q hq t hqt
  · exact htx

/-- Inserting a transaction whose index is fresh (equal to the bound)
preserves cross-shard index distinctness. -/
theorem groupsInsert_cross (m : List (Nat × List Transaction)) (k : Nat) (tx : Transaction)
    (idx : Nat) (hb : GroupsBound m idx) (hc : GroupsCross m) (htx : tx.index = idx) :
    GroupsCross (groupsInsert m k tx) := by
  intro p hp q hq t ht u hu hne
  rcases groupsInsert_txMem m k tx p hp t ht with ⟨p2, hp2, hp1, hpt⟩ | ⟨het, hpk⟩
  · rcases groupsInsert_txMem m k tx q hq u hu with ⟨q2, hq2, hq1, hqt⟩ | ⟨heu, hqk⟩
    · exact hc p2 hp2 q2 hq2 t hpt u hqt (by rw [hp1, hq1]; exact hne)
    · have hlt := hb p2 hp2 t hpt
      have heq : u.index = idx := by rw [heu, htx]
      omega
  · rcases groupsInsert_txMem m k tx q hq u hu with ⟨q2, hq2, hq1, hqt⟩ | ⟨heu, hqk⟩
    · have hlt := hb q2 hq2 u hqt
      have heq : t.index = idx := by rw [het, htx]
      omega
    · exact absurd (hpk.trans hqk.symm) hne

/-- Step equation of the grouping loop: undecodable sender. -/
theorem groupTxsByShardGo_cons_nodecode (env : MultiEnv) (idx : Nat) (tx : Transaction)
    (rest : List Transaction) (m : List (Nat × List Transaction))
    (h : env.decode tx.sender = none) :
    groupTxsByShardGo env idx (tx :: rest) m = groupTxsByShardGo env (idx + 1) rest m := by
  simp only [groupTxsByShardGo, h]

/-- Step equation of the grouping loop: shard computation failure. -/
theorem groupTxsByShardGo_cons_noshard (env : MultiEnv) (idx : Nat) (tx : Transaction)
    (rest : List Transaction) (m : List (Nat × List Transaction)) (sb : List Nat)
    (h1 : env.decode tx.sender = some sb) (h2 : env.computeShardId sb = none) :
    groupTxsByShardGo env idx (tx :: rest) m = groupTxsByShardGo env (idx + 1) rest m := by
  simp only [groupTxsByShardGo, h1, h2]

/-- Step equation of the grouping loop: the transaction joins its shard group
with its `Index` stamped to the running position. -/
theorem groupTxsByShardGo_cons_insert (env : MultiEnv) (idx : Nat) (tx : Transaction)
    (rest : List Transaction) (m : List (Nat × List Transaction)) (sb : List Nat) (shard : Nat)
    (h1 : env.decode tx.sender = some sb) (h2 : env.computeShardId sb = some shard) :
    groupTxsByShardGo env idx (tx :: rest) m =
      groupTxsByShardGo env (idx + 1) rest (groupsInsert m shard { tx with index := idx }) := by
  simp only [groupTxsByShardGo, h1, h2]

/-- The grouping loop preserves the boundedness, cross-distinctness and
key-uniqueness invariants. -/
theorem groupTxsByShardGo_invariant (env : MultiEnv) :
    ∀ (ts : List Transaction) (idx : Nat) (m : List (Nat × List Transaction)),
    GroupsBound m idx → GroupsCross m → ((m.map Prod.fst).Nodup) →
    GroupsBound (groupTxsByShardGo env idx ts m) (idx + ts.length) ∧
      GroupsCross (groupTxsByShardGo env idx ts m) ∧
      (((groupTxsByShardGo env idx ts m).map Prod.fst).Nodup)
  | [], idx, m, hb, hc, hn => by
    simp only [groupTxsByShardGo]
    exact ⟨by simpa using hb, hc, hn⟩
  | tx :: rest, idx, m, hb, hc, hn => by
    have hb1 : GroupsBound m (idx + 1) := hb.mono (Nat.le_succ idx)
    have hlen : (idx + 1) + rest.length ≤ idx + (tx :: rest).length := by
      simp [List.length_cons]
      omega
    cases hdec : env.decode tx.sender with
    | none =>
      rw [groupTxsByShardGo_cons_nodecode env idx tx rest m hdec]
      have h := groupTxsByShardGo_invariant env rest (idx + 1) m hb1 hc hn
      exact ⟨h.1.mono hlen, h.2.1, h.2.2⟩
    | some senderBytes =>
      cases hsh : env.computeShardId senderBytes with
      | none =>
        rw [groupTxsByShardGo_cons_noshard env idx tx rest m senderBytes hdec hsh]
        have h := groupTxsByShardGo_invariant env rest (idx + 1) m hb1 hc hn
        exact ⟨h.1.mono hlen, h.2.1, h.2.2⟩
      | some shard =>
        rw [groupTxsByShardGo_cons_insert env idx tx rest m senderBytes shard hdec hsh]
        have hbI := groupsInsert_bound m shard { tx with index := idx } (idx + 1) hb1
          (by simp)
        have hcI := groupsInsert_cross m shard { tx with index := idx } idx hb hc rfl
        have hnI := groupsInsert_keys_nodup m shard { tx with index := idx } hn
        have h := groupTxsByShardGo_invariant env rest (idx + 1)
          (groupsInsert m shard { tx with index := idx }) hbI hcI hnI
        exact ⟨h.1.mono hlen, h.2.1, h.2.2⟩

/-- Provenance of a grouped transaction: it satisfies the accumulator
property or is an input transaction stamped with its running index. -/
theorem groupTxsByShardGo_index (env : MultiEnv) :
    ∀ (ts : List Transaction) (idx : Nat) (m : List (Nat × List Transaction))
      (P : Transaction → Prop),
    (∀ p ∈ m, ∀ t ∈ p.2, P t) →
    ∀ p ∈ groupTxsByShardGo env idx ts m, ∀ t ∈ p.2,
      P t ∨ ∃ j orig, ts.get? j = some orig ∧ t = { orig with index := idx + j }
  | [], idx, m, P, hm, p, hp, t, ht => Or.inl (hm p hp t ht)
  | tx :: rest, idx, m, P, hm, p, hp, t, ht => by
    have hshift : (P t ∨ ∃ j orig, rest.get? j = some orig ∧
        t = { orig with index := (idx + 1) + j }) →
        (P t ∨ ∃ j orig, (tx :: rest).get? j = some orig ∧
          t = { orig with index := idx + j }) := by
      intro h
      rcases h with h | ⟨j, orig, hj, hte⟩
      · exact Or.inl h
      · refine Or.inr ⟨j + 1, orig, by simpa using hj, ?_⟩
        rw [hte]
        have harith : (idx + 1) + j = idx + (j + 1) := by omega
        rw [harith]
    cases hdec : env.decode tx.sender with
    | none =>
      rw [groupTxsByShardGo_cons_nodecode env idx tx rest m hdec] at hp
      exact hshift (groupTxsByShardGo_index env rest (idx + 1) m P hm p hp t ht)
    | some senderBytes =>
      cases hsh : env.computeShardId senderBytes with
      | none =>
        rw [groupTxsByShardGo_cons_noshard env idx tx rest m senderBytes hdec hsh] at hp
        exact hshift (groupTxsByShardGo_index env rest (idx + 1) m P hm p hp t ht)
      | some shard =>
        rw [groupTxsByShardGo_cons_insert env idx tx rest m senderBytes shard hdec hsh] at hp
        have hm2 : ∀ q ∈ groupsInsert m shard { tx with index := idx }, ∀ u ∈ q.2,
            P u ∨ u = { tx with index := idx } := by
          intro q hq u hu
          rcases groupsInsert_txMem m shard { tx with index := idx } q hq u hu with
            ⟨q2, hq2, _, hqu⟩ | ⟨he, _⟩
          · exact Or.inl (hm q2 hq2 u hqu)
          · exact Or.inr he
        have h := groupTxsByShardGo_index env rest (idx + 1) _
          (fun u => P u ∨ u = { tx with index := idx }) hm2 p hp t ht
        rcases h with (hP | he) | ⟨j, orig, hj, hte⟩
        · exact Or.inl hP
        · refine Or.inr ⟨0, tx, rfl, ?_⟩
          rw [he]
          simp
        · exact hshift (Or.inr ⟨j, orig, hj, hte⟩)

/-- Every transaction of every group of `groupTxsByShard` is an input
transaction whose assigned `Index` equals its position in the input list. -/
theorem groupTxsByShard_index (env : MultiEnv) (ts : List Transaction) :
    ∀ p ∈ groupTxsByShard env ts, ∀ t ∈ p.2,
      ∃ orig, ts.get? t.index = some orig ∧ t = { orig with index := t.index } := by
  intro p hp t ht
  have h := groupTxsByShardGo_index env ts 0 [] (fun _ => False)
    (by intro q hq; exact absurd hq (List.not_mem_nil q)) p hp t ht
  rcases h with hF | ⟨j, orig, hj, hte⟩
  · exact hF.elim
  · subst hte
    refine ⟨orig, ?_, rfl⟩
    simpa using hj

/-- Membership after a map write. -/
theorem hashesInsert_mem :
    ∀ (m : List (Nat × String)) (k : Nat) (v : String) (kv : Nat × String),
      kv ∈ hashesInsert m k v → kv ∈ m ∨ kv.1 = k
  | [], k, v, kv, h => by
    simp only [hashesInsert, List.mem_singleton] at h
    subst h
    exact Or.inr rfl
  | (k2, v2) :: rest, k, v, kv, h => by
    simp only [hashesInsert] at h
    by_cases hk : k2 = k
    · rw [if_pos hk] at h
      rcases List.mem_cons.mp h with rfl | h2
      · exact Or.inr rfl
      · exact Or.inl (List.mem_cons_of_mem _ h2)
    · rw [if_neg hk] at h
      rcases List.mem_cons.mp h with rfl | h2
      · exact Or.inl (List.mem_cons_self _ _)
      · rcases hashesInsert_mem rest k v kv h2 with h3 | h3
        · exact Or.inl (List.mem_cons_of_mem _ h3)
        · exact Or.inr h3

/-- With all backend keys in range, the hash merge succeeds. -/
theorem applyObsHashes_ok (group : List Transaction) :
    ∀ (hs acc : List (Nat × String)),
    (∀ kv ∈ hs, kv.1 < group.length) →
    ∃ acc2, applyObsHashes group hs acc = .ok acc2
  | [], acc, _ => ⟨acc, rfl⟩
  | (key, hsh) :: rest, acc, hlt => by
    simp only [applyObsHashes]
    have hk : key < group.length := hlt (key, hsh) (List.mem_cons_self _ _)
    cases hget : group.get? key with
    | none =>
      have := List.get?_eq_none.mp hget
      omega
    | some tx =>
      exact applyObsHashes_ok group rest (hashesInsert acc tx.index hsh)
        (fun kv hkv => hlt kv (List.mem_cons_of_mem _ hkv))

/-- Keys produced by the hash merge come from the accumulator or from the
assigned index of a transaction of the group. -/
theorem applyObsHashes_keys (group : List Transaction) :
    ∀ (hs acc acc2 : List (Nat × String)),
    applyObsHashes group hs acc = .ok acc2 →
    ∀ kv ∈ acc2, kv ∈ acc ∨ ∃ t ∈ group, t.index = kv.1
  | [], acc, acc2, heq, kv, hkv => by
    simp only [applyObsHashes] at heq
    cases heq
    exact Or.inl hkv
  | (key, hsh) :: rest, acc, acc2, heq, kv, hkv => by
    simp only [applyObsHashes] at heq
    cases hget : group.get? key with
    | none => rw [hget] at heq; cases heq
    | some tx =>
      rw [hget] at heq
      rcases applyObsHashes_keys group rest _ acc2 heq kv hkv with hin | h
      · rcases hashesInsert_mem acc tx.index hsh kv hin with h2 | h2
        · exact Or.inl h2
        · exact Or.inr ⟨tx, List.get?_mem hget, h2.symm⟩
      · exact Or.inr h

/-- Step equation of the group loop: missing observers abort. -/
theorem processShardGroups_cons_noobs (env : MultiEnv) (shardID : Nat)
    (group : List Transaction) (rest : List (Nat × List Transaction)) (total : Nat)
    (hashes : List (Nat × String)) (h : env.getObservers shardID = none) :
    processShardGroups env ((shardID, group) :: rest) total hashes =
      .error .missingObserver := by
  simp only [processShardGroups, h]

/-- Step equation of the group loop: a group with no successful observer is
skipped without contributing. -/
theorem processShardGroups_cons_nofirst (env : MultiEnv) (shardID : Nat)
    (group : List Transaction) (rest : List (Nat × List Transaction)) (total : Nat)
    (hashes : List (Nat × String)) (obs : List MultiObsResp)
    (h1 : env.getObservers shardID = some obs) (h2 : firstOkMulti obs = none) :
    processShardGroups env ((shardID, group) :: rest) total hashes =
      processShardGroups env rest total hashes := by
  simp only [processShardGroups, h1, h2]

/-- Step equation of the group loop: a backend key out of range panics. -/
theorem processShardGroups_cons_panic (env : MultiEnv) (shardID : Nat)
    (group : List Transaction) (rest : List (Nat × List Transaction)) (total : Nat)
    (hashes : List (Nat × String)) (obs : List MultiObsResp) (r : MultiObsResp)
    (e : MultiTxErr) (h1 : env.getObservers shardID = some obs)
    (h2 : firstOkMulti obs = some r)
    (h3 : applyObsHashes group r.txsHashes hashes = .error e) :
    processShardGroups env ((shardID, group) :: rest) total hashes = .error e := by
  simp only [processShardGroups, h1, h2, h3]

/-- Step equation of the group loop: the first successful observer of a group
contributes its transaction count and hashes. -/
theorem processShardGroups_cons_ok (env : MultiEnv) (shardID : Nat)
    (group : List Transaction) (rest : List (Nat × List Transaction)) (total : Nat)
    (hashes : List (Nat × String)) (obs : List MultiObsResp) (r : MultiObsResp)
    (acc2 : List (Nat × String)) (h1 : env.getObservers shardID = some obs)
    (h2 : firstOkMulti obs = some r)
    (h3 : applyObsHashes group r.txsHashes hashes = .ok acc2) :
    processShardGroups env ((shardID, group) :: rest) total hashes =
      processShardGroups env rest (total + r.numOfTxs) acc2 := by
  simp only [processShardGroups, h1, h2, h3]

/-- With observers present for every group and well-formed backend keys, the
group loop of `SendMultipleTransactions` never fails. -/
theorem processShardGroups_ok (env : MultiEnv) :
    ∀ (gs : List (Nat × List Transaction)) (total : Nat) (hashes : List (Nat × String)),
    (∀ p ∈ gs, ∃ obs, env.getObservers p.1 = some obs ∧
      ∀ r, firstOkMulti obs = some r → ∀ kv ∈ r.txsHashes, kv.1 < p.2.length) →
    ∃ res, processShardGroups env gs total hashes = .ok res
  | [], total, hashes, _ => ⟨⟨total, hashes⟩, rfl⟩
  | (shardID, group) :: rest, total, hashes, hgs => by
    obtain ⟨obs, hobs, hr⟩ := hgs (shardID, group) (List.mem_cons_self _ _)
    cases hfo : firstOkMulti obs with
    | none =>
      rw [processShardGroups_cons_nofirst env shardID group rest total hashes obs hobs hfo]
      exact processShardGroups_ok env rest total hashes
        (fun p hp => hgs p (List.mem_cons_of_mem _ hp))
    | some r =>
      obtain ⟨acc2, hacc⟩ := applyObsHashes_ok group r.txsHashes hashes (hr r hfo)
      rw [processShardGroups_cons_ok env shardID group rest total hashes obs r acc2 hobs hfo hacc]
      exact processShardGroups_ok env rest (total + r.numOfTxs) acc2
        (fun p hp => hgs p (List.mem_cons_of_mem _ hp))

/-- Keys of the returned hash map come from the starting accumulator or from
the assigned index of a transaction of some processed group. -/
theorem processShardGroups_keys (env : MultiEnv) :
    ∀ (gs : List (Nat × List Transaction)) (total : Nat) (hashes : List (Nat × String))
      (res : MultipleTransactionsResponseData),
    processShardGroups env gs total hashes = .ok res →
    ∀ kv ∈ res.txsHashes, kv ∈ hashes ∨ ∃ p ∈ gs, ∃ t ∈ p.2, t.index = kv.1
  | [], total, hashes, res, heq, kv, hkv => by
    simp only [processShardGroups] at heq
    cases heq
    exact Or.inl hkv
  | (shardID, group) :: rest, total, hashes, res, heq, kv, hkv => by
    cases hobs : env.getObservers shardID with
    | none =>
      rw [processShardGroups_cons_noobs env shardID group rest total hashes hobs] at heq
      cases heq
    | some obs =>
      cases hfo : firstOkMulti obs with
      | none =>
        rw [processShardGroups_cons_nofirst env shardID group rest total hashes obs
          hobs hfo] at heq
        rcases processShardGroups_keys env rest total hashes res heq kv hkv with h | ⟨p, hp, h⟩
        · exact Or.inl h
        · exact Or.inr ⟨p, List.mem_cons_of_mem _ hp, h⟩
      | some r =>
        cases hacc : applyObsHashes group r.txsHashes hashes with
        | error e =>
          rw [processShardGroups_cons_panic env shardID group rest total hashes obs r e
            hobs hfo hacc] at heq
          cases heq
        | ok acc2 =>
          rw [processShardGroups_cons_ok env shardID group rest total hashes obs r acc2
            hobs hfo hacc] at heq
          rcases processShardGroups_keys env rest _ acc2 res heq kv hkv with h | ⟨p, hp, h⟩
          · rcases applyObsHashes_keys group r.txsHashes hashes acc2 hacc kv h with h2 | ⟨t, ht, h2⟩
            · exact Or.inl h2
            · exact Or.inr ⟨(shardID, group), List.mem_cons_self _ _, t, ht, h2⟩
          · exact Or.inr ⟨p, List.mem_cons_of_mem _ hp, h⟩

/-- A group whose observers all fail contributes nothing: it can be removed
from the processed list without changing the outcome. -/
theorem processShardGroups_skip_middle (env : MultiEnv) (g : Nat × List Transaction)
    (obs : List MultiObsResp) (hobs : env.getObservers g.1 = some obs)
    (hfail : firstOkMulti obs = none) :
    ∀ (l1 l2 : List (Nat × List Transaction)) (total : Nat) (hashes : List (Nat × String)),
    processShardGroups env (l1 ++ g :: l2) total hashes =
      processShardGroups env (l1 ++ l2) total hashes
  | [], l2, total, hashes => by
    obtain ⟨gk, gl⟩ := g
    rw [List.nil_append, List.nil_append,
      processShardGroups_cons_nofirst env gk gl l2 total hashes obs hobs hfail]
  | (k, grp) :: rest, l2, total, hashes => by
    rw [List.cons_append, List.cons_append]
    cases hko : env.getObservers k with
    | none =>
      rw [processShardGroups_cons_noobs env k grp (rest ++ g :: l2) total hashes hko,
        processShardGroups_cons_noobs env k grp (rest ++ l2) total hashes hko]
    | some obs2 =>
      cases hfo : firstOkMulti obs2 with
      | none =>
        rw [processShardGroups_cons_nofirst env k grp (rest ++ g :: l2) total hashes obs2 hko hfo,
          processShardGroups_cons_nofirst env k grp (rest ++ l2) total hashes obs2 hko hfo]
        exact processShardGroups_skip_middle env g obs hobs hfail rest l2 total hashes
      | some r =>
        cases hacc : applyObsHashes grp r.txsHashes hashes with
        | error e =>
          rw [processShardGroups_cons_panic env k grp (rest ++ g :: l2) total hashes obs2 r e
            hko hfo hacc,
            processShardGroups_cons_panic env k grp (rest ++ l2) total hashes obs2 r e
            hko hfo hacc]
        | ok acc2 =>
          rw [processShardGroups_cons_ok env k grp (rest ++ g :: l2) total hashes obs2 r acc2
            hko hfo hacc,
            processShardGroups_cons_ok env k grp (rest ++ l2) total hashes obs2 r acc2
            hko hfo hacc]
          exact processShardGroups_skip_middle env g obs hobs hfail rest l2
            (total + r.numOfTxs) acc2

/-- Sending with no surviving transaction fails. -/
theorem SendMultipleTransactions_empty (env : MultiEnv) (txs : List Transaction)
    (h : txsToSend env txs = []) :
    SendMultipleTransactions env txs = .error .noValidTransactionToSend := by
  unfold SendMultipleTransactions
  rw [h]
  rfl

/-- Sending with surviving transactions runs the group loop over the grouped
survivors. -/
theorem SendMultipleTransactions_nonempty (env : MultiEnv) (txs : List Transaction)
    (h : (txsToSend env txs).isEmpty = false) :
    SendMultipleTransactions env txs =
      processShardGroups env (groupTxsByShard env (txsToSend env txs)) 0 [] := by
  unfold SendMultipleTransactions
  rw [h]
  rfl

/-- Invalid first transaction for the C6 counterexample. -/
def txC6bad : Transaction := ⟨0, "0", "rc", "badsender", 0, 0, [], "", "1", 1, 0⟩

/-- Valid second transaction for the C6 counterexample; its original position
in the submitted list is 1. -/
def txC6good : Transaction := ⟨0, "0", "rc", "goodsender", 0, 0, [], "", "1", 1, 7⟩

/-- Environment for the C6 counterexample: only `badsender` fails to decode;
one shard with one healthy observer. -/
def envC6 : MultiEnv :=
  ⟨fun s => if s = "badsender" then none else some [0],
    fun _ => some 0,
    fun _ => some [⟨200, none, 1, [(0, "hashX")]⟩]⟩

/-- Claim C6 counterexample: submitting `[txC6bad, txC6good]`, the surviving
transaction (original position 1) is assigned index 0, the position in the
filtered list, and the returned hash map is keyed by 0 — not by the original
position 1 as the claim states. -/
theorem claim_c6_counterexample :
    SendMultipleTransactions envC6 [txC6bad, txC6good] = .ok ⟨1, [(0, "hashX")]⟩ ∧
      groupTxsByShard envC6 (txsToSend envC6 [txC6bad, txC6good]) =
        [(0, [{ txC6good with index := 0 }])] ∧
      (0 : Nat) ≠ 1 :=
  ⟨by decide, by decide, by decide⟩

/-- Claim C6 (amended): every surviving transaction is assigned an index
equal to its position in the filtered list of valid transactions (not the
original submitted list), the returned hash map is keyed by those assigned
indexes, and with no survivor the call fails with
`NoValidTransactionToSend`. -/
theorem claim_c6_amended (env : MultiEnv) (txs : List Transaction) :
    (txsToSend env txs = [] →
      SendMultipleTransactions env txs = .error .noValidTransactionToSend) ∧
    (∀ p ∈ groupTxsByShard env (txsToSend env txs), ∀ t ∈ p.2,
      ∃ orig, (txsToSend env txs).get? t.index = some orig ∧
        t = { orig with index := t.index }) ∧
    (∀ res, SendMultipleTransactions env txs = .ok res → ∀ kv ∈ res.txsHashes,
      ∃ p ∈ groupTxsByShard env (txsToSend env txs), ∃ t ∈ p.2, t.index = kv.1) := by
  refine ⟨SendMultipleTransactions_empty env txs, groupTxsByShard_index env _, ?_⟩
  intro res hres kv hkv
  cases hl : txsToSend env txs with
  | nil =>
    rw [SendMultipleTransactions_empty env txs hl] at hres
    cases hres
  | cons a b =>
    have hne : (txsToSend env txs).isEmpty = false := by rw [hl]; rfl
    rw [SendMultipleTransactions_nonempty env txs hne] at hres
    rcases processShardGroups_keys env _ 0 [] res hres kv hkv with h | h
    · exact absurd h (List.not_mem_nil kv)
    · rw [← hl]
      exact h

/-- Environment for the C6 witness: no sender decodes, so nothing survives. -/
def envC6w : MultiEnv := ⟨fun _ => none, fun _ => some 0, fun _ => none⟩

/-- Transaction for the C6 witness. -/
def txC6w : Transaction := ⟨0, "0", "rw", "sw", 0, 0, [], "", "1", 1, 0⟩

/-- Witness for the amended C6: with no valid transaction the call fails with
`NoValidTransactionToSend`. -/
theorem claim_c6_witness :
    SendMultipleTransactions envC6w [txC6w] = .error .noValidTransactionToSend :=
  (claim_c6_amended envC6w [txC6w]).1 (by decide)

/-- Claim C9: when the observers of one shard group all fail while every
other group has observers and well-formed responses,
`SendMultipleTransactions` still returns a nil error; the result equals what
processing the other groups alone produces, and no transaction of the failed
group has an entry in the returned hash map. -/
theorem claim_c9_partial_success (env : MultiEnv) (txs : List Transaction)
    (l1 l2 : List (Nat × List Transaction)) (g : Nat × List Transaction)
    (obsg : List MultiObsResp)
    (hgroups : groupTxsByShard env (txsToSend env txs) = l1 ++ g :: l2)
    (hobsg : env.getObservers g.1 = some obsg)
    (hfailg : firstOkMulti obsg = none)
    (hothers : ∀ p ∈ l1 ++ l2, ∃ obs, env.getObservers p.1 = some obs ∧
      ∀ r, firstOkMulti obs = some r → ∀ kv ∈ r.txsHashes, kv.1 < p.2.length) :
    ∃ res, SendMultipleTransactions env txs = .ok res ∧
      processShardGroups env (l1 ++ l2) 0 [] = .ok res ∧
      ∀ t ∈ g.2, ∀ v : String, (t.index, v) ∉ res.txsHashes := by
  have hne : (txsToSend env txs).isEmpty = false := by
    cases hts : txsToSend env txs with
    | nil =>
      rw [hts] at hgroups
      have hnil : ([] : List (Nat × List Transaction)) = l1 ++ g :: l2 := hgroups
      exact absurd (List.append_eq_nil.mp hnil.symm).2 (List.cons_ne_nil g l2)
    | cons a b => rfl
  have hsend := SendMultipleTransactions_nonempty env txs hne
  obtain ⟨res, hres⟩ := processShardGroups_ok env (l1 ++ l2) 0 [] hothers
  refine ⟨res, ?_, hres, ?_⟩
  · rw [hsend, hgroups,
      processShardGroups_skip_middle env g obsg hobsg hfailg l1 l2 0 [], hres]
  · intro t ht v hmem
    have hprov := processShardGroups_keys env (l1 ++ l2) 0 [] res hres (t.index, v) hmem
    rcases hprov with h | ⟨p, hp, u, hu, hui⟩
    · exact absurd h (List.not_mem_nil _)
    · have hinv := groupTxsByShardGo_invariant env (txsToSend env txs) 0 []
        (fun p hp => absurd hp (List.not_mem_nil p))
        (fun p hp => absurd hp (List.not_mem_nil p))
        (by simp)
      have hgroups2 : groupTxsByShardGo env 0 (txsToSend env txs) [] = l1 ++ g :: l2 := hgroups
      rw [hgroups2] at hinv
      have hcross : GroupsCross (l1 ++ g :: l2) := hinv.2.1
      have hnodup := hinv.2.2
      by_cases hpk : p.1 = g.1
      · rw [List.map_append, List.map_cons] at hnodup
        obtain ⟨h1, h2, hdisj⟩ := List.nodup_append.mp hnodup
        have hpin : p.1 ∈ l1.map Prod.fst ∨ p.1 ∈ l2.map Prod.fst := by
          rcases List.mem_append.mp hp with h | h
          · exact Or.inl (List.mem_map_of_mem Prod.fst h)
          · exact Or.inr (List.mem_map_of_mem Prod.fst h)
        rcases hpin with h3 | h3
        · rw [hpk] at h3
          exact hdisj h3 (List.mem_cons_self _ _)
        · rw [hpk] at h3
          exact (List.nodup_cons.mp h2).1 h3
      · have hg : g ∈ l1 ++ g :: l2 := by simp
        have hpin : p ∈ l1 ++ g :: l2 := by
          rcases List.mem_append.mp hp with h | h
          · exact List.mem_append.mpr (Or.inl h)
          · exact List.mem_append.mpr (Or.inr (List.mem_cons_of_mem _ h))
        exact (hcross p hpin g hg u hu t ht hpk) hui

/-- First transaction (healthy shard 0) for the C9 witness. -/
def txC9a : Transaction := ⟨0, "0", "rv", "sa", 0, 0, [], "", "1", 1, 9⟩

/-- Second transaction (failing shard 1) for the C9 witness. -/
def txC9b : Transaction := ⟨0, "0", "rv", "sb", 0, 0, [], "", "1", 1, 8⟩

/-- Environment for the C9 witness: shard 0 has a healthy observer, shard 1
only a failing one. -/
def envC9 : MultiEnv :=
  ⟨fun s => if s = "sa" then some [0] else if s = "sb" then some [1] else some [2],
    fun bs => some (bs.headD 0),
    fun shard => if shard = 0 then some [⟨200, none, 1, [(0, "hA")]⟩]
      else some [⟨500, some "boom", 0, []⟩]⟩

/-- Witness for C9: the shard-1 group fails wholly, yet the call returns ok
with only the shard-0 contribution, and the shard-1 transaction is absent. -/
theorem claim_c9_witness :
    ∃ res, SendMultipleTransactions envC9 [txC9a, txC9b] = .ok res ∧
      processShardGroups envC9 ([(0, [{ txC9a with index := 0 }])] ++ []) 0 [] = .ok res ∧
      ∀ t ∈ [{ txC9b with index := 1 }], ∀ v : String, (t.index, v) ∉ res.txsHashes := by
  refine claim_c9_partial_success envC9 [txC9a, txC9b]
    [(0, [{ txC9a with index := 0 }])] [] (1, [{ txC9b with index := 1 }])
    [⟨500, some "boom", 0, []⟩] (by decide) rfl rfl ?_
  intro p hp
  simp only [List.append_nil, List.mem_singleton] at hp
  subst hp
  refine ⟨[⟨200, none, 1, [(0, "hA")]⟩], rfl, ?_⟩
  intro r hr kv hkv
  have hr2 : (⟨200, none, 1, [(0, "hA")]⟩ : MultiObsResp) = r := by
    simpa [firstOkMulti] using hr
  subst hr2
  simp only [List.mem_singleton] at hkv
  subst hkv
  decide

end ElrondProxy
